import Mathlib

/-!
Verification of the borealis view-stack lifecycle and focus-navigation engine
(src/library/lib/application.cpp) against its natural-language specification.

The development is a shallow embedding: each relevant function of
`Application` is translated into a pure Lean function over explicit state
records.  Animation completion callbacks are defunctionalised into a pending
queue carried by the state; firing the next pending callback is an explicit
step (`fireNext`).  Side effects that the claims talk about (lifecycle hooks,
view destruction, focus events, action listener invocations) are recorded in
an event log.
-/

set_option maxHeartbeats 1000000

namespace Borealis

/-- Animation kinds for view transitions (the ViewAnimation enum of the
library headers; the code in application.cpp only distinguishes the fade
variant, via comparisons with ViewAnimation::FADE). -/
inductive ViewAnimation where
  | fade
  | slideLeft
  | slideRight
  deriving DecidableEq

/-- Directions for focus navigation (the FocusDirection enum). -/
inductive FocusDirection where
  | up
  | down
  | left
  | right
  deriving DecidableEq

/-- Key bit masks from the libnx switch.h header (external to this
repository): KEY_PLUS = BIT(10), KEY_MINUS = BIT(11), KEY_DLEFT = BIT(12),
KEY_DUP = BIT(13), KEY_DRIGHT = BIT(14), KEY_DDOWN = BIT(15).  The Key enum
of the library reuses the same mask values, so the static_cast between u64
buttons and Key in the source is the identity on these values. -/
def KEY_PLUS : Nat := 2 ^ 10

/-- KEY_MINUS = BIT(11); see KEY_PLUS. -/
def KEY_MINUS : Nat := 2 ^ 11

/-- KEY_DLEFT = BIT(12); see KEY_PLUS. -/
def KEY_DLEFT : Nat := 2 ^ 12

/-- KEY_DUP = BIT(13); see KEY_PLUS. -/
def KEY_DUP : Nat := 2 ^ 13

/-- KEY_DRIGHT = BIT(14); see KEY_PLUS. -/
def KEY_DRIGHT : Nat := 2 ^ 14

/-- KEY_DDOWN = BIT(15); see KEY_PLUS. -/
def KEY_DDOWN : Nat := 2 ^ 15

namespace Stack

/-- A view as seen by the view-stack / transition-controller code: an
identity (standing for the View* pointer), the translucency flags, the
hidden lifecycle flag, the alpha opacity and the list of registered action
keys (Application::pushView registers two default actions on the incoming
view).  Fields follow the data model of the spec (section 3). -/
structure SView where
  vid : Nat
  translucent : Bool
  forceTranslucent : Bool
  hidden : Bool
  alpha : Int
  actions : List Nat
  deriving DecidableEq

/-- Modelled from the spec: View::isTranslucent is not under src/ (only
application.cpp is); per the spec data model a view is translucent when its
translucent flag or the transient forceTranslucent override is set. -/
def isTranslucent (v : SView) : Bool :=
  v.translucent || v.forceTranslucent

/-- View::registerAction as used by pushView: appends an action with the
given key to the view's action list (label and listener are irrelevant to
the stack claims). -/
def registerAction (key : Nat) (v : SView) : SView :=
  { v with actions := v.actions ++ [key] }

/-- Observable events of the stack/transition code, recorded in a log:
lifecycle hooks, animation starts, view destruction, the user-supplied
popView completion callback, and focus events. -/
inductive Ev where
  | willAppear (vid : Nat)
  | willDisappear (vid : Nat)
  | showStart (vid : Nat)
  | hideStart (vid : Nat)
  | deleted (vid : Nat)
  | userCb (cbId : Nat)
  | focusLost (vid : Nat)
  | focusChange (vid : Option Nat)
  | focusGained (vid : Nat)
  deriving DecidableEq

/-- Defunctionalised animation completion callbacks: the lambdas passed to
View::show / View::hide by pushView and popView.
* unblock is the lambda performing only Application::unblockInputs.
* pushHide is the hide-completion lambda of pushView (captures animation
  and wait).
* popHide is the hide-completion lambda of popView (captures last,
  animation, wait and the user callback).
* user stands for the user-supplied popView callback cb. -/
inductive Cb where
  | unblock
  | pushHide (wait : Bool) (animation : ViewAnimation)
  | popHide (wait : Bool) (animation : ViewAnimation) (lastId : Nat) (cbId : Nat)
  | user (cbId : Nat)
  deriving DecidableEq

/-- The Application state owned by the view-stack code: the view stack
(bottom first, last element = topmost), the parallel focus-restoration
stack (entries are the saved currentFocus pointers, possibly null), the
current focus, the input-block counter, the queue of animation completion
callbacks not yet fired, and the event log. -/
structure AppState where
  viewStack : List SView
  focusStack : List (Option Nat)
  currentFocus : Option Nat
  blockInputsTokens : Int
  pending : List Cb
  log : List Ev
  deriving DecidableEq

/-- Application::blockInputs: increment the token counter. -/
def blockInputs (s : AppState) : AppState :=
  { s with blockInputsTokens := s.blockInputsTokens + 1 }

/-- Application::unblockInputs: decrement the token counter only when it is
strictly positive. -/
def unblockInputs (s : AppState) : AppState :=
  if 0 < s.blockInputsTokens then
    { s with blockInputsTokens := s.blockInputsTokens - 1 }
  else s

/-- Mutate the view with the given identity wherever it sits in the view
stack (pointer mutation in the source). -/
def updateView (vid : Nat) (f : SView → SView) (s : AppState) : AppState :=
  { s with viewStack := s.viewStack.map (fun w => if w.vid = vid then f w else w) }

/-- Record an observable event. -/
def emit (e : Ev) (s : AppState) : AppState :=
  { s with log := s.log ++ [e] }

/-- Start an animation: its completion callback joins the pending queue. -/
def enqueue (cb : Cb) (s : AppState) : AppState :=
  { s with pending := s.pending ++ [cb] }

/-- View::setForceTranslucent on a view in the stack. -/
def setForceTranslucent (vid : Nat) (b : Bool) (s : AppState) : AppState :=
  updateView vid (fun w => { w with forceTranslucent := b }) s

/-- Modelled from the spec: View::show is not under src/; per the spec it
clears the hidden lifecycle flag and starts the show animation, whose
completion callback fires exactly once later (section 5 of the spec). -/
def showView (vid : Nat) (cb : Cb) (s : AppState) : AppState :=
  enqueue cb (emit (Ev.showStart vid) (updateView vid (fun w => { w with hidden := false }) s))

/-- Modelled from the spec: View::hide is not under src/; per the spec it
sets the hidden lifecycle flag and starts the hide animation, whose
completion callback fires exactly once later. -/
def hideView (vid : Nat) (cb : Cb) (s : AppState) : AppState :=
  enqueue cb (emit (Ev.hideStart vid) (updateView vid (fun w => { w with hidden := true }) s))

/-- The onFocusLost hook fires only when the old focus is non-null. -/
def focusLostEv : Option Nat → List Ev
  | some o => [Ev.focusLost o]
  | none => []

/-- The onFocusGained hook fires only when the new focus is non-null. -/
def focusGainedEv : Option Nat → List Ev
  | some n => [Ev.focusGained n]
  | none => []

/-- Application::giveFocus: resolve the default focus of the given view
(df models View::getDefaultFocus, resolved through the view identity), and
if it differs from the current focus fire onFocusLost, reassign, fire the
global focus change event and onFocusGained. -/
def giveFocus (df : Nat → Option Nat) (view : Option Nat) (s : AppState) : AppState :=
  if s.currentFocus ≠ view.bind df then
    { s with
      currentFocus := view.bind df,
      log := s.log ++ focusLostEv s.currentFocus
          ++ [Ev.focusChange (view.bind df)] ++ focusGainedEv (view.bind df) }
  else s

/-- Fire one defunctionalised completion callback.  Each case is the body
of the corresponding lambda in the source:
* unblock: Application::unblockInputs().
* pushHide (pushView lines 792-801): read the current stack top, clear its
  forced translucency, and when wait is set start its show animation with
  an unblock callback.
* popHide (popView lines 715-739): clear forced translucency on the
  captured view, pop the stack top and destroy the captured view, then if a
  view remains and wait is set show it when it was left hidden (otherwise
  invoke the user callback directly), and finally unblock inputs.
* user: the user-supplied popView callback (observable event only). -/
def fireCb (cb : Cb) (s : AppState) : AppState :=
  match cb with
  | Cb.unblock => unblockInputs s
  | Cb.user cbId => emit (Ev.userCb cbId) s
  | Cb.pushHide wait _anim =>
    match s.viewStack.getLast? with
    | none => s
    | some newLast =>
      let s1 := setForceTranslucent newLast.vid false s
      if wait then showView newLast.vid Cb.unblock s1 else s1
  | Cb.popHide wait _anim lastId cbId =>
    let s1 := setForceTranslucent lastId false s
    let s2 := { s1 with viewStack := s1.viewStack.dropLast }
    let s3 := emit (Ev.deleted lastId) s2
    let s4 :=
      if 0 < s3.viewStack.length ∧ wait = true then
        match s3.viewStack.getLast? with
        | none => s3
        | some newLast =>
          if newLast.hidden then
            showView newLast.vid (Cb.user cbId) (emit (Ev.willAppear newLast.vid) s3)
          else emit (Ev.userCb cbId) s3
      else s3
    unblockInputs s4

/-- The animation engine fires the completion callbacks of finished
animations one at a time, in the order the animations were started. -/
def fireNext (s : AppState) : AppState :=
  match s.pending with
  | [] => s
  | cb :: rest => fireCb cb { s with pending := rest }

/-- Fire up to n pending completion callbacks. -/
def runN : Nat → AppState → AppState
  | 0, s => s
  | n + 1, s => runN n (fireNext s)

/-- Application::pushView (lines 761-825), linearised: block inputs, read
the current top, compute fadeOut and wait, register the two default
actions, run the fade-out machinery when fadeOut (force the incoming view
translucent; when not waiting start its show animation at once; hide the
outgoing view with the pushHide completion), otherwise show the incoming
view immediately (and when fading set its alpha to zero instead), save the
current focus on the focus stack when the stack was non-empty, fire
willAppear, give default focus, and append the view to the stack.
setBoundaries and invalidate do not touch the modelled state. -/
def pushView (df : Nat → Option Nat) (view0 : SView) (animation : ViewAnimation)
    (s0 : AppState) : AppState :=
  let s1 := blockInputs s0
  let last := s1.viewStack.getLast?
  let fadeOut : Bool :=
    match last with
    | some l => !isTranslucent l && !isTranslucent view0
    | none => false
  let wait : Bool := decide (animation = ViewAnimation.fade)
  let view1 := registerAction KEY_MINUS (registerAction KEY_PLUS view0)
  let view2 := if fadeOut then { view1 with forceTranslucent := true } else view1
  let view3 := if fadeOut && !wait then { view2 with hidden := false } else view2
  let s2 :=
    if fadeOut && !wait then enqueue Cb.unblock (emit (Ev.showStart view3.vid) s1) else s1
  let s3 :=
    if fadeOut then
      match last with
      | some l => hideView l.vid (Cb.pushHide wait animation) s2
      | none => s2
    else s2
  let view4 := if !fadeOut then { view3 with hidden := false } else { view3 with alpha := 0 }
  let s4 :=
    if !fadeOut then enqueue Cb.unblock (emit (Ev.showStart view4.vid) s3) else s3
  let s5 :=
    if 0 < s4.viewStack.length then
      { s4 with focusStack := s4.focusStack ++ [s4.currentFocus] }
    else s4
  let s6 := emit (Ev.willAppear view4.vid) s5
  let s7 := giveFocus df (df view4.vid) s6
  { s7 with viewStack := s7.viewStack ++ [view4] }

/-- Application::popView (lines 700-759): a no-op when the stack holds at
most one view; otherwise block inputs, fire willDisappear on the top view,
force it translucent, start its hide animation with the popHide completion,
when not waiting and a prior view exists show it immediately with the user
callback, and finally restore focus from the focus stack when that stack is
non-empty (giveFocus on its top entry, then pop it). -/
def popView (df : Nat → Option Nat) (animation : ViewAnimation) (cbId : Nat)
    (s0 : AppState) : AppState :=
  if s0.viewStack.length ≤ 1 then s0
  else
    let s1 := blockInputs s0
    match s1.viewStack.getLast? with
    | none => s1
    | some last =>
      let s2 := emit (Ev.willDisappear last.vid) s1
      let s3 := setForceTranslucent last.vid true s2
      let wait : Bool := decide (animation = ViewAnimation.fade)
      let s4 := hideView last.vid (Cb.popHide wait animation last.vid cbId) s3
      let s5 :=
        if wait = false ∧ 1 < s4.viewStack.length then
          match s4.viewStack.get? (s4.viewStack.length - 2) with
          | some toShow => showView toShow.vid (Cb.user cbId) (emit (Ev.willAppear toShow.vid) s4)
          | none => s4
        else s4
      if 0 < s5.focusStack.length then
        let g := giveFocus df (s5.focusStack.getLast?.getD none) s5
        { g with focusStack := g.focusStack.dropLast }
      else s5

/-- A completed stack operation: a pushView or a popView together with the
animation completion callbacks of its transition (two callback firings
always suffice to drain the queue a single transition creates). -/
inductive SOp where
  | push (v : SView) (a : ViewAnimation)
  | pop (a : ViewAnimation) (cbId : Nat)
  deriving DecidableEq

/-- Run one operation to completion: the synchronous part followed by the
firing of all completion callbacks it scheduled. -/
def applySOp (df : Nat → Option Nat) : SOp → AppState → AppState
  | SOp.push v a, s => runN 2 (pushView df v a s)
  | SOp.pop a cbId, s => runN 2 (popView df a cbId s)

/-- Run a sequence of completed stack operations. -/
def runSOps (df : Nat → Option Nat) : List SOp → AppState → AppState
  | [], s => s
  | op :: ops, s => runSOps df ops (applySOp df op s)

/-- A call to blockInputs or unblockInputs. -/
inductive TokOp where
  | block
  | unblock
  deriving DecidableEq

def applyTokOp : TokOp → AppState → AppState
  | TokOp.block, s => blockInputs s
  | TokOp.unblock, s => unblockInputs s

def runTokOps : List TokOp → AppState → AppState
  | [], s => s
  | op :: ops, s => runTokOps ops (applyTokOp op s)

/-- A concrete view for witnesses. -/
def sview (n : Nat) : SView :=
  { vid := n, translucent := false, forceTranslucent := false, hidden := false,
    alpha := 255, actions := [] }

/-- A default-focus resolution for witnesses: every view is its own default
focus target. -/
def dfId : Nat → Option Nat := fun n => some n

/-- The state before init pushes any view. -/
def stateEmpty : AppState :=
  { viewStack := [], focusStack := [], currentFocus := none,
    blockInputsTokens := 0, pending := [], log := [] }

/-- An initialized state: the root view is on the stack. -/
def stateRoot : AppState :=
  { viewStack := [sview 0], focusStack := [], currentFocus := some 0,
    blockInputsTokens := 0, pending := [], log := [] }

/-- An initialized state with one view pushed over the root. -/
def stateTwo : AppState :=
  { viewStack := [sview 0, sview 1], focusStack := [some 0], currentFocus := some 1,
    blockInputsTokens := 0, pending := [], log := [] }

end Stack

namespace Input

/-- A registered action: identity, key, availability flag and the (pure)
result of its listener.  Per the spec the listener returns a boolean —
true meaning consumed — and never fails. -/
structure PAction where
  aid : Nat
  key : Nat
  available : Bool
  result : Bool
  deriving DecidableEq

/-- A view as seen by the input dispatcher and the focus navigator: its
identity, the parent-scoped user data consulted by getNextFocus, and the
registered actions.  A view pointer together with its ancestor path is a
non-empty list of these nodes (head = the view, tail = ancestors up to the
root), so hasParent holds exactly when the tail is non-empty and getParent
is the head of the tail. -/
structure PNode where
  vid : Nat
  userData : Nat
  actions : List PAction
  deriving DecidableEq

/-- Observable input-path events: listener invocation (with its result),
the rejection feedback cue shakeHighlight, and the focus hooks/event. -/
inductive IEvent where
  | actionInvoked (aid : Nat) (consumed : Bool)
  | shake (vid : Nat) (dir : FocusDirection)
  | focusLost (vid : Nat)
  | focusChange (vid : Option Nat)
  | focusGained (vid : Nat)
  deriving DecidableEq

/-- Application state touched by the input path: the current focus (empty
list = null pointer), the focus recorded at the previously processed
press, the input-block counter and the event log. -/
structure InputState where
  currentFocus : List PNode
  repetitionOldFocus : List PNode
  blockInputsTokens : Int
  log : List IEvent
  deriving DecidableEq

/-- Collaborator contracts used by the navigator (external layout code):
getNextFocus on a parent (given the direction and the child's parent user
data; empty result = null) and getDefaultFocus (the view's default
focusable descendant; empty = null). -/
structure NavEnv where
  nextFocus : Nat → FocusDirection → Nat → List PNode
  defaultFocus : List PNode → List PNode

/-- Inner loop of Application::handleAction over one view's action list:
skip actions whose key differs from the pressed button, skip actions whose
key was already consumed in this dispatch pass, invoke available matching
listeners and record the key as consumed when a listener returns true.
The accumulator carries the consumed-key set and the invocation log. -/
def processActions (button : Nat) :
    List PAction → List Nat → List (Nat × Bool) → List Nat × List (Nat × Bool)
  | [], ck, inv => (ck, inv)
  | a :: rest, ck, inv =>
    if a.key ≠ button then processActions button rest ck inv
    else if a.key ∈ ck then processActions button rest ck inv
    else if a.available then
      if a.result then processActions button rest (a.key :: ck) (inv ++ [(a.aid, true)])
      else processActions button rest ck (inv ++ [(a.aid, false)])
    else processActions button rest ck inv

/-- Outer loop of Application::handleAction: walk the focus chain from the
current focus towards the root. -/
def handleActionGo (button : Nat) :
    List PNode → List Nat → List (Nat × Bool) → List Nat × List (Nat × Bool)
  | [], ck, inv => (ck, inv)
  | n :: rest, ck, inv =>
    let r := processActions button n.actions ck inv
    handleActionGo button rest r.1 r.2

/-- Application::handleAction (lines 536-560): returns whether any
listener consumed the key (the consumed-key set became non-empty),
together with the list of listener invocations (action id, result) in
invocation order. -/
def handleAction (button : Nat) (chain : List PNode) : Bool × List (Nat × Bool) :=
  let r := handleActionGo button chain [] []
  (!r.1.isEmpty, r.2)

/-- The vid of the head view of a chain, if any (for the focus change
event payload). -/
def headVid : List PNode → Option Nat
  | [] => none
  | n :: _ => some n.vid

/-- The onFocusLost hook fires only on a non-null old focus. -/
def focusLostEv : List PNode → List IEvent
  | [] => []
  | n :: _ => [IEvent.focusLost n.vid]

/-- The onFocusGained hook fires only on a non-null new focus. -/
def focusGainedEv : List PNode → List IEvent
  | [] => []
  | n :: _ => [IEvent.focusGained n.vid]

/-- Application::giveFocus (lines 679-698) on the input path: resolve the
default focus of the given view (null stays null), and when it differs
from the current focus fire onFocusLost, reassign, fire the global focus
change event and onFocusGained. -/
def giveFocus (env : NavEnv) (view : List PNode) (s : InputState) : InputState :=
  if s.currentFocus ≠ (if view = [] then [] else env.defaultFocus view) then
    { s with
      currentFocus := (if view = [] then [] else env.defaultFocus view),
      log := s.log ++ focusLostEv s.currentFocus
        ++ [IEvent.focusChange (headVid (if view = [] then [] else env.defaultFocus view))]
        ++ focusGainedEv (if view = [] then [] else env.defaultFocus view) }
  else s

/-- The while loop of Application::navigate (lines 483-490): given the
current climb position and the candidate found so far, stop as soon as a
candidate exists; otherwise climb one level — allowed only while the
current position has both a parent and a grandparent (the root is never
consulted as a jump target) — and ask the new parent for a next focus with
the new current's parent user data. -/
def navWhile (env : NavEnv) (dir : FocusDirection) : List PNode → List PNode → List PNode
  | _, n :: rest => n :: rest
  | _f :: p :: q :: tl, [] => navWhile env dir (p :: q :: tl) (env.nextFocus q.vid dir p.userData)
  | _, [] => []

/-- Application::navigate (lines 471-501): a no-op without a current focus
or when it has no parent; otherwise ask the parent for a next focus and
climb with the while loop; on failure play shakeHighlight on the original
focus in the requested direction, on success give the candidate focus. -/
def navigate (env : NavEnv) (dir : FocusDirection) (s : InputState) : InputState :=
  match s.currentFocus with
  | [] => s
  | f :: parents =>
    match parents with
    | [] => s
    | p :: rest =>
      let next := navWhile env dir (f :: p :: rest) (env.nextFocus p.vid dir f.userData)
      if next = [] then { s with log := s.log ++ [IEvent.shake f.vid dir] }
      else giveFocus env next s

/-- Record the listener invocations a handleAction call performs on the
current focus chain into the event log. -/
def logActions (button : Nat) (s : InputState) : InputState :=
  { s with
    log := s.log
      ++ (handleAction button s.currentFocus).2.map (fun e => IEvent.actionInvoked e.1 e.2) }

/-- The action/navigation part of Application::onGamepadButtonPressed
(lines 513-528): dispatch actions along the focus chain; when no listener
consumed the button, fall through to directional navigation on the dpad
bits (DDOWN, DUP, DLEFT, DRIGHT tested in that order). -/
def dispatchButton (env : NavEnv) (button : Nat) (s : InputState) : InputState :=
  if (handleAction button s.currentFocus).1 = true then logActions button s
  else if button &&& KEY_DDOWN ≠ 0 then navigate env FocusDirection.down (logActions button s)
  else if button &&& KEY_DUP ≠ 0 then navigate env FocusDirection.up (logActions button s)
  else if button &&& KEY_DLEFT ≠ 0 then navigate env FocusDirection.left (logActions button s)
  else if button &&& KEY_DRIGHT ≠ 0 then navigate env FocusDirection.right (logActions button s)
  else logActions button s

/-- Application::onGamepadButtonPressed (lines 503-529): return at once
while inputs are blocked; drop a repeating press whose recorded old focus
equals the current focus; otherwise record the current focus and dispatch
the button. -/
def onGamepadButtonPressed (env : NavEnv) (button : Nat) (repeating : Bool)
    (s : InputState) : InputState :=
  if s.blockInputsTokens ≠ 0 then s
  else if repeating = true ∧ s.repetitionOldFocus = s.currentFocus then s
  else dispatchButton env button { s with repetitionOldFocus := s.currentFocus }

/-- A navigation environment for witnesses: no candidate anywhere, default
focus is the view itself. -/
def envNone : NavEnv :=
  { nextFocus := fun _ _ _ => [], defaultFocus := fun l => l }

/-- A concrete chain node for witnesses. -/
def pnode (n : Nat) (acts : List PAction) : PNode :=
  { vid := n, userData := n, actions := acts }

/-- A two-node focus chain for the dispatcher witness: the focused view
has a matching available listener that does not consume, its parent has
one that consumes. -/
def chainW : List PNode :=
  [pnode 1 [{ aid := 1, key := 5, available := true, result := false }],
    pnode 2 [{ aid := 2, key := 5, available := true, result := true }]]

/-- A concrete input state for witnesses. -/
def istateW (fcs old : List PNode) (tok : Int) : InputState :=
  { currentFocus := fcs, repetitionOldFocus := old, blockInputsTokens := tok, log := [] }

/-- Invariant of a dispatch pass for a fixed button: either nothing
consumed yet (consumed-key set empty, every invocation so far returned
false) or the button was consumed (the set holds exactly the button and
the invocation log is all-false invocations followed by one consuming
invocation, its last entry). -/
def LogOk (button : Nat) (ck : List Nat) (inv : List (Nat × Bool)) : Prop :=
  (ck = [] ∧ ∀ e ∈ inv, e.2 = false) ∨
  (ck = [button] ∧ ∃ pre x, inv = pre ++ [x] ∧ x.2 = true ∧ ∀ e ∈ pre, e.2 = false)

end Input

namespace Frame

/-- The collection loop of Application::frame (lines 583-590): walk the
view stack from the top downward (the input list here is already in
top-down order), pushing each view onto viewsToDraw, and stop right after
the first view that is not translucent. -/
def collectLoop : List Stack.SView → List Stack.SView
  | [] => []
  | v :: rest => v :: (if Stack.isTranslucent v then collectLoop rest else [])

/-- viewsToDraw of Application::frame: the collection loop applied to the
stack read top-down (viewStack is stored bottom-first). -/
def viewsToDraw (viewStack : List Stack.SView) : List Stack.SView :=
  collectLoop viewStack.reverse

/-- The draw pass of Application::frame (lines 592-596): the collected
views are drawn in reverse collection order, i.e. bottom-to-top, so
topmost views composite last. -/
def drawOrder (viewStack : List Stack.SView) : List Stack.SView :=
  (viewsToDraw viewStack).reverse

end Frame

namespace Loop

/-- BUTTON_REPEAT_DELAY of application.cpp (line 47): the auto-repeat
delay threshold, in repeat-timer ticks. -/
def BUTTON_REPEAT_DELAY : Int := 15

/-- BUTTON_REPEAT_CADENCY of application.cpp (line 48): the auto-repeat
cadence, in repeat-timer ticks. -/
def BUTTON_REPEAT_CADENCY : Int := 5

/-- The static input-scan state of Application::mainLoop: the per-button
held flags (Application::buttons), the wall-clock time of the last
repeat-timer increment (buttonPressTime, microseconds), the shared repeat
timer (repeatingButtonTimer), and — for observation — the list of
onGamepadButtonPressed dispatches (button mask, repeating flag) performed
so far. -/
structure LoopState where
  buttons : Nat → Bool
  buttonPressTime : Int
  repeatingButtonTimer : Int
  dispatches : List (Nat × Bool)

/-- Whether bit i of the held-keys mask kDown is set ((kDown & button) != 0
with button = 1 << i). -/
def buttonDown (kDown : Nat) (i : Nat) : Bool :=
  decide (kDown &&& 2 ^ i ≠ 0)

/-- The auto-repeat condition of mainLoop line 418:
repeatingButtonTimer > BUTTON_REPEAT_DELAY and
repeatingButtonTimer % BUTTON_REPEAT_CADENCY == 0. -/
def repeatFlag (s : LoopState) : Bool :=
  decide (BUTTON_REPEAT_DELAY < s.repeatingButtonTimer ∧
    s.repeatingButtonTimer % BUTTON_REPEAT_CADENCY = 0)

/-- One iteration of the per-button loop of mainLoop (lines 410-428) for
button index i: on a held button, dispatch on a fresh edge or when the
repeat condition holds; zero buttonPressTime and the repeat timer whenever
the pressed/released status changed; store the new status.  The Bool
accumulator is anyButtonPressed. -/
def scanStep (kDown : Nat) (acc : LoopState × Bool) (i : Nat) : LoopState × Bool :=
  let s := acc.1
  let down := buttonDown kDown i
  ({ buttons := fun j => if j = i then down else s.buttons j,
     buttonPressTime := if s.buttons i ≠ down then 0 else s.buttonPressTime,
     repeatingButtonTimer := if s.buttons i ≠ down then 0 else s.repeatingButtonTimer,
     dispatches :=
       if down = true ∧ (s.buttons i ≠ down ∨ repeatFlag s = true) then
         s.dispatches ++ [(2 ^ i, repeatFlag s)]
       else s.dispatches },
    acc.2 || down)

/-- The input-scan portion of Application::mainLoop (lines 402-434): run
the per-button loop over all button indices, then — when any button is
held and more than 1000 microseconds of wall time passed since the last
increment — advance the shared repeat timer once and remember the time.
now stands for the value cpu_features_get_time_usec() returns during this
tick; maxButtons is the external MaxButtons constant. -/
def mainLoopScan (maxButtons : Nat) (kDown : Nat) (now : Int) (s : LoopState) : LoopState :=
  let r := (List.range maxButtons).foldl (scanStep kDown) (s, false)
  { buttons := r.1.buttons,
    buttonPressTime :=
      if r.2 = true ∧ 1000 < now - r.1.buttonPressTime then now else r.1.buttonPressTime,
    repeatingButtonTimer :=
      if r.2 = true ∧ 1000 < now - r.1.buttonPressTime then r.1.repeatingButtonTimer + 1
      else r.1.repeatingButtonTimer,
    dispatches := r.1.dispatches }

/-- The state at program start: no button held, timers zero. -/
def initLoopState : LoopState :=
  { buttons := fun _ => false, buttonPressTime := 0, repeatingButtonTimer := 0,
    dispatches := [] }

/-- Hold button i continuously for n ticks from the initial state, with
2000 microseconds of wall time between consecutive ticks (the normal
frame-paced regime: more than the 1000-microsecond gate of line 430). -/
def holdRun (maxButtons i : Nat) : Nat → LoopState
  | 0 => initLoopState
  | n + 1 => mainLoopScan maxButtons (2 ^ i) (2000 * (n + 1)) (holdRun maxButtons i n)

end Loop

namespace Stack

@[simp]
theorem blockInputs_viewStack (s : AppState) : (blockInputs s).viewStack = s.viewStack := rfl

@[simp]
theorem blockInputs_focusStack (s : AppState) : (blockInputs s).focusStack = s.focusStack := rfl

@[simp]
theorem blockInputs_currentFocus (s : AppState) :
    (blockInputs s).currentFocus = s.currentFocus := rfl

@[simp]
theorem blockInputs_pending (s : AppState) : (blockInputs s).pending = s.pending := rfl

@[simp]
theorem blockInputs_tokens (s : AppState) :
    (blockInputs s).blockInputsTokens = s.blockInputsTokens + 1 := rfl

@[simp]
theorem unblockInputs_viewStack (s : AppState) : (unblockInputs s).viewStack = s.viewStack := by
  unfold unblockInputs; split <;> rfl

@[simp]
theorem unblockInputs_focusStack (s : AppState) :
    (unblockInputs s).focusStack = s.focusStack := by
  unfold unblockInputs; split <;> rfl

@[simp]
theorem unblockInputs_currentFocus (s : AppState) :
    (unblockInputs s).currentFocus = s.currentFocus := by
  unfold unblockInputs; split <;> rfl

@[simp]
theorem unblockInputs_pending (s : AppState) : (unblockInputs s).pending = s.pending := by
  unfold unblockInputs; split <;> rfl

@[simp]
theorem unblockInputs_log (s : AppState) : (unblockInputs s).log = s.log := by
  unfold unblockInputs; split <;> rfl

theorem unblockInputs_tokens (s : AppState) :
    (unblockInputs s).blockInputsTokens =
      if 0 < s.blockInputsTokens then s.blockInputsTokens - 1 else s.blockInputsTokens := by
  unfold unblockInputs; split <;> rfl

@[simp]
theorem updateView_viewStack (vid : Nat) (f : SView → SView) (s : AppState) :
    (updateView vid f s).viewStack
      = s.viewStack.map (fun w => if w.vid = vid then f w else w) := rfl

@[simp]
theorem updateView_focusStack (vid : Nat) (f : SView → SView) (s : AppState) :
    (updateView vid f s).focusStack = s.focusStack := rfl

@[simp]
theorem updateView_currentFocus (vid : Nat) (f : SView → SView) (s : AppState) :
    (updateView vid f s).currentFocus = s.currentFocus := rfl

@[simp]
theorem updateView_pending (vid : Nat) (f : SView → SView) (s : AppState) :
    (updateView vid f s).pending = s.pending := rfl

@[simp]
theorem updateView_tokens (vid : Nat) (f : SView → SView) (s : AppState) :
    (updateView vid f s).blockInputsTokens = s.blockInputsTokens := rfl

@[simp]
theorem emit_viewStack (e : Ev) (s : AppState) : (emit e s).viewStack = s.viewStack := rfl

@[simp]
theorem emit_focusStack (e : Ev) (s : AppState) : (emit e s).focusStack = s.focusStack := rfl

@[simp]
theorem emit_currentFocus (e : Ev) (s : AppState) : (emit e s).currentFocus = s.currentFocus := rfl

@[simp]
theorem emit_pending (e : Ev) (s : AppState) : (emit e s).pending = s.pending := rfl

@[simp]
theorem emit_tokens (e : Ev) (s : AppState) :
    (emit e s).blockInputsTokens = s.blockInputsTokens := rfl

@[simp]
theorem enqueue_viewStack (cb : Cb) (s : AppState) : (enqueue cb s).viewStack = s.viewStack := rfl

@[simp]
theorem enqueue_focusStack (cb : Cb) (s : AppState) :
    (enqueue cb s).focusStack = s.focusStack := rfl

@[simp]
theorem enqueue_currentFocus (cb : Cb) (s : AppState) :
    (enqueue cb s).currentFocus = s.currentFocus := rfl

@[simp]
theorem enqueue_pending (cb : Cb) (s : AppState) :
    (enqueue cb s).pending = s.pending ++ [cb] := rfl

@[simp]
theorem enqueue_tokens (cb : Cb) (s : AppState) :
    (enqueue cb s).blockInputsTokens = s.blockInputsTokens := rfl

@[simp]
theorem setForceTranslucent_viewStack_length (vid : Nat) (b : Bool) (s : AppState) :
    (setForceTranslucent vid b s).viewStack.length = s.viewStack.length := by
  simp [setForceTranslucent]

@[simp]
theorem setForceTranslucent_focusStack (vid : Nat) (b : Bool) (s : AppState) :
    (setForceTranslucent vid b s).focusStack = s.focusStack := rfl

@[simp]
theorem setForceTranslucent_currentFocus (vid : Nat) (b : Bool) (s : AppState) :
    (setForceTranslucent vid b s).currentFocus = s.currentFocus := rfl

@[simp]
theorem setForceTranslucent_pending (vid : Nat) (b : Bool) (s : AppState) :
    (setForceTranslucent vid b s).pending = s.pending := rfl

@[simp]
theorem setForceTranslucent_tokens (vid : Nat) (b : Bool) (s : AppState) :
    (setForceTranslucent vid b s).blockInputsTokens = s.blockInputsTokens := rfl

@[simp]
theorem showView_viewStack_length (vid : Nat) (cb : Cb) (s : AppState) :
    (showView vid cb s).viewStack.length = s.viewStack.length := by
  simp [showView]

@[simp]
theorem showView_focusStack (vid : Nat) (cb : Cb) (s : AppState) :
    (showView vid cb s).focusStack = s.focusStack := rfl

@[simp]
theorem showView_currentFocus (vid : Nat) (cb : Cb) (s : AppState) :
    (showView vid cb s).currentFocus = s.currentFocus := rfl

@[simp]
theorem showView_pending (vid : Nat) (cb : Cb) (s : AppState) :
    (showView vid cb s).pending = s.pending ++ [cb] := rfl

@[simp]
theorem showView_tokens (vid : Nat) (cb : Cb) (s : AppState) :
    (showView vid cb s).blockInputsTokens = s.blockInputsTokens := rfl

@[simp]
theorem hideView_viewStack_length (vid : Nat) (cb : Cb) (s : AppState) :
    (hideView vid cb s).viewStack.length = s.viewStack.length := by
  simp [hideView]

@[simp]
theorem hideView_focusStack (vid : Nat) (cb : Cb) (s : AppState) :
    (hideView vid cb s).focusStack = s.focusStack := rfl

@[simp]
theorem hideView_currentFocus (vid : Nat) (cb : Cb) (s : AppState) :
    (hideView vid cb s).currentFocus = s.currentFocus := rfl

@[simp]
theorem hideView_pending (vid : Nat) (cb : Cb) (s : AppState) :
    (hideView vid cb s).pending = s.pending ++ [cb] := rfl

@[simp]
theorem hideView_tokens (vid : Nat) (cb : Cb) (s : AppState) :
    (hideView vid cb s).blockInputsTokens = s.blockInputsTokens := rfl

@[simp]
theorem giveFocus_viewStack (df : Nat → Option Nat) (v : Option Nat) (s : AppState) :
    (giveFocus df v s).viewStack = s.viewStack := by
  unfold giveFocus; split <;> rfl

@[simp]
theorem giveFocus_focusStack (df : Nat → Option Nat) (v : Option Nat) (s : AppState) :
    (giveFocus df v s).focusStack = s.focusStack := by
  unfold giveFocus; split <;> rfl

@[simp]
theorem giveFocus_pending (df : Nat → Option Nat) (v : Option Nat) (s : AppState) :
    (giveFocus df v s).pending = s.pending := by
  unfold giveFocus; split <;> rfl

@[simp]
theorem giveFocus_tokens (df : Nat → Option Nat) (v : Option Nat) (s : AppState) :
    (giveFocus df v s).blockInputsTokens = s.blockInputsTokens := by
  unfold giveFocus; split <;> rfl

/-- popView returns before doing anything at all when the stack holds at
most one view (line 702 of the source). -/
theorem popView_eq_self_of_le_one (df : Nat → Option Nat) (animation : ViewAnimation)
    (cbId : Nat) (s : AppState) (h : s.viewStack.length ≤ 1) :
    popView df animation cbId s = s := by
  unfold popView
  simp [h]

theorem runN_two_shape_unblock (s : AppState) (h : s.pending = [Cb.unblock]) :
    (runN 2 s).pending = [] ∧
    (runN 2 s).viewStack = s.viewStack ∧
    (runN 2 s).focusStack = s.focusStack ∧
    (runN 2 s).blockInputsTokens
      = (if 0 < s.blockInputsTokens then s.blockInputsTokens - 1 else s.blockInputsTokens) := by
  simp only [runN, fireNext, h, fireCb]
  refine ⟨?_, ?_, ?_, ?_⟩ <;> simp [unblockInputs_tokens]

theorem runN_two_shape_unblock_pushHide (s : AppState) (a : ViewAnimation)
    (h : s.pending = [Cb.unblock, Cb.pushHide false a]) (hne : s.viewStack ≠ []) :
    (runN 2 s).pending = [] ∧
    (runN 2 s).viewStack.length = s.viewStack.length ∧
    (runN 2 s).focusStack = s.focusStack ∧
    (runN 2 s).blockInputsTokens
      = (if 0 < s.blockInputsTokens then s.blockInputsTokens - 1 else s.blockInputsTokens) := by
  simp only [runN, fireNext, h, fireCb, unblockInputs_pending, unblockInputs_viewStack]
  rcases hL : s.viewStack.getLast? with _ | newLast
  · exact absurd (List.getLast?_eq_none_iff.mp hL) hne
  · simp [hL, unblockInputs_tokens]

theorem runN_two_shape_pushHide_wait (s : AppState) (a : ViewAnimation)
    (h : s.pending = [Cb.pushHide true a]) (hne : s.viewStack ≠ []) :
    (runN 2 s).pending = [] ∧
    (runN 2 s).viewStack.length = s.viewStack.length ∧
    (runN 2 s).focusStack = s.focusStack ∧
    (runN 2 s).blockInputsTokens
      = (if 0 < s.blockInputsTokens then s.blockInputsTokens - 1 else s.blockInputsTokens) := by
  simp only [runN, fireNext, h, fireCb]
  rcases hL : s.viewStack.getLast? with _ | newLast
  · exact absurd (List.getLast?_eq_none_iff.mp hL) hne
  · simp [hL, unblockInputs_tokens]

/-- Effect of firing the popView hide-completion callback: the stack loses
its (current) top entry, inputs are unblocked once, and at most one chained
user-callback animation is queued (only in the wait branch, when the view
below was left hidden). -/
theorem fireCb_popHide_char (wait : Bool) (a : ViewAnimation) (lastId cbId : Nat)
    (s : AppState) :
    ((fireCb (Cb.popHide wait a lastId cbId) s).pending = s.pending ∨
      (fireCb (Cb.popHide wait a lastId cbId) s).pending = s.pending ++ [Cb.user cbId]) ∧
    (fireCb (Cb.popHide wait a lastId cbId) s).viewStack.length = s.viewStack.length - 1 ∧
    (fireCb (Cb.popHide wait a lastId cbId) s).focusStack = s.focusStack ∧
    (fireCb (Cb.popHide wait a lastId cbId) s).currentFocus = s.currentFocus ∧
    (fireCb (Cb.popHide wait a lastId cbId) s).blockInputsTokens
      = (if 0 < s.blockInputsTokens then s.blockInputsTokens - 1 else s.blockInputsTokens) := by
  simp only [fireCb]
  split
  · split
    · refine ⟨Or.inl ?_, ?_, ?_, ?_, ?_⟩ <;> simp [unblockInputs_tokens]
    · rename_i newLast heq
      by_cases hh : newLast.hidden = true
      · refine ⟨Or.inr ?_, ?_, ?_, ?_, ?_⟩ <;> simp [hh, unblockInputs_tokens]
      · refine ⟨Or.inl ?_, ?_, ?_, ?_, ?_⟩ <;> simp [hh, unblockInputs_tokens]
  · refine ⟨Or.inl ?_, ?_, ?_, ?_, ?_⟩ <;> simp [unblockInputs_tokens]

theorem runN_two_eq (s : AppState) : runN 2 s = fireNext (fireNext s) := rfl

theorem fireNext_of_pending_nil (s : AppState) (h : s.pending = []) : fireNext s = s := by
  simp [fireNext, h]

theorem fireNext_of_pending_cons (s : AppState) (cb : Cb) (rest : List Cb)
    (h : s.pending = cb :: rest) : fireNext s = fireCb cb { s with pending := rest } := by
  simp [fireNext, h]

/-- Firing the user callback only records an event. -/
theorem fireNext_user_char (s : AppState) (c : Nat) (h : s.pending = [Cb.user c]) :
    (fireNext s).pending = [] ∧
    (fireNext s).viewStack = s.viewStack ∧
    (fireNext s).focusStack = s.focusStack ∧
    (fireNext s).currentFocus = s.currentFocus ∧
    (fireNext s).blockInputsTokens = s.blockInputsTokens := by
  rw [fireNext_of_pending_cons s (Cb.user c) [] h]
  simp [fireCb]

theorem runN_two_shape_popHide (s : AppState) (a : ViewAnimation)
    (wait : Bool) (lastId cbId : Nat)
    (h : s.pending = [Cb.popHide wait a lastId cbId]) :
    (runN 2 s).pending = [] ∧
    (runN 2 s).viewStack.length = s.viewStack.length - 1 ∧
    (runN 2 s).focusStack = s.focusStack ∧
    (runN 2 s).blockInputsTokens
      = (if 0 < s.blockInputsTokens then s.blockInputsTokens - 1 else s.blockInputsTokens) := by
  rw [runN_two_eq, fireNext_of_pending_cons s (Cb.popHide wait a lastId cbId) [] h]
  rcases fireCb_popHide_char wait a lastId cbId { s with pending := [] }
    with ⟨hp | hp, hlen, hfs, hcf, htok⟩ <;>
    simp only at hp hlen hfs hcf htok
  · rw [fireNext_of_pending_nil _ hp]
    exact ⟨hp, hlen, hfs, htok⟩
  · rcases fireNext_user_char _ cbId hp with ⟨hp2, hv2, hfs2, hcf2, htok2⟩
    refine ⟨hp2, ?_, ?_, ?_⟩
    · rw [hv2]; exact hlen
    · rw [hfs2]; exact hfs
    · rw [htok2]; exact htok

theorem runN_two_shape_popHide_user (s : AppState) (a : ViewAnimation)
    (lastId cbId cbId2 : Nat)
    (h : s.pending = [Cb.popHide false a lastId cbId, Cb.user cbId2]) :
    (runN 2 s).pending = [] ∧
    (runN 2 s).viewStack.length = s.viewStack.length - 1 ∧
    (runN 2 s).focusStack = s.focusStack ∧
    (runN 2 s).blockInputsTokens
      = (if 0 < s.blockInputsTokens then s.blockInputsTokens - 1 else s.blockInputsTokens) := by
  rw [runN_two_eq, fireNext_of_pending_cons s (Cb.popHide false a lastId cbId) [Cb.user cbId2] h]
  rcases fireCb_popHide_char false a lastId cbId { s with pending := [Cb.user cbId2] }
    with ⟨hp | hp, hlen, hfs, hcf, htok⟩ <;>
    simp only at hp hlen hfs hcf htok
  · rcases fireNext_user_char _ cbId2 hp with ⟨hp2, hv2, hfs2, hcf2, htok2⟩
    refine ⟨hp2, ?_, ?_, ?_⟩
    · rw [hv2]; exact hlen
    · rw [hfs2]; exact hfs
    · rw [htok2]; exact htok
  · -- the chained show is queued only in the wait branch, and wait is false here
    exact absurd hp (by simp [fireCb])

/-- Synchronous effect of pushView: exactly one blockInputsTokens
increment, exactly one new view-stack entry, one focus-stack entry exactly
when the stack was non-empty, and one of three pending-callback shapes
depending on the fadeOut and wait branches. -/
theorem pushView_char (df : Nat → Option Nat) (v : SView) (a : ViewAnimation) (s : AppState) :
    (pushView df v a s).blockInputsTokens = s.blockInputsTokens + 1 ∧
    (pushView df v a s).viewStack.length = s.viewStack.length + 1 ∧
    (pushView df v a s).viewStack ≠ [] ∧
    (pushView df v a s).focusStack.length
      = s.focusStack.length + (if s.viewStack.length = 0 then 0 else 1) ∧
    ((pushView df v a s).pending = s.pending ++ [Cb.unblock] ∨
      (pushView df v a s).pending = s.pending ++ [Cb.unblock, Cb.pushHide false a] ∨
      (pushView df v a s).pending = s.pending ++ [Cb.pushHide true a]) := by
  rcases hL : s.viewStack.getLast? with _ | l
  · have hnil : s.viewStack = [] := List.getLast?_eq_none_iff.mp hL
    refine ⟨?_, ?_, ?_, ?_, Or.inl ?_⟩ <;>
      simp [pushView, hL, hnil]
  · have hne : s.viewStack ≠ [] := by
      intro hcon; rw [hcon] at hL; simp at hL
    have hpos : 0 < s.viewStack.length := List.length_pos.mpr hne
    have h0 : ¬s.viewStack.length = 0 := by omega
    by_cases hf : (!isTranslucent l && !isTranslucent v) = true
    · by_cases hw : a = ViewAnimation.fade
      · subst hw
        refine ⟨?_, ?_, ?_, ?_, Or.inr (Or.inr ?_)⟩ <;>
          simp [pushView, hL, hf, hpos, h0]
      · have hw' : decide (a = ViewAnimation.fade) = false := by simp [hw]
        refine ⟨?_, ?_, ?_, ?_, Or.inr (Or.inl ?_)⟩ <;>
          simp [pushView, hL, hf, hw', hpos, h0]
    · have hf' : (!isTranslucent l && !isTranslucent v) = false := by
        revert hf; cases (!isTranslucent l && !isTranslucent v) <;> simp
      refine ⟨?_, ?_, ?_, ?_, Or.inl ?_⟩ <;>
        simp [pushView, hL, hf', hpos, h0]

theorem hideView_viewStack_eq (vid : Nat) (cb : Cb) (s : AppState) :
    (hideView vid cb s).viewStack
      = s.viewStack.map (fun w => if w.vid = vid then { w with hidden := true } else w) := rfl

theorem setForceTranslucent_viewStack_eq (vid : Nat) (b : Bool) (s : AppState) :
    (setForceTranslucent vid b s).viewStack
      = s.viewStack.map (fun w => if w.vid = vid then { w with forceTranslucent := b } else w) := rfl

/-- Synchronous effect of popView on a stack with at least two views:
exactly one blockInputsTokens increment, the view stack untouched (its top
is only removed later, by the hide completion), one focus-stack entry
removed, and one of two pending-callback shapes depending on wait. -/
theorem popView_char (df : Nat → Option Nat) (a : ViewAnimation) (cbId : Nat) (s : AppState)
    (h2 : 1 < s.viewStack.length) :
    (popView df a cbId s).blockInputsTokens = s.blockInputsTokens + 1 ∧
    (popView df a cbId s).viewStack.length = s.viewStack.length ∧
    (popView df a cbId s).focusStack.length = s.focusStack.length - 1 ∧
    ∃ lastId,
      ((popView df a cbId s).pending = s.pending ++ [Cb.popHide true a lastId cbId]
          ∧ a = ViewAnimation.fade) ∨
      ((popView df a cbId s).pending = s.pending ++ [Cb.popHide false a lastId cbId, Cb.user cbId]
          ∧ a ≠ ViewAnimation.fade) := by
  have hnotle : ¬s.viewStack.length ≤ 1 := by omega
  rcases hL : s.viewStack.getLast? with _ | last
  · have hnil : s.viewStack = [] := List.getLast?_eq_none_iff.mp hL
    rw [hnil] at h2; simp at h2
  · by_cases hw : a = ViewAnimation.fade
    · subst hw
      refine ⟨?_, ?_, ?_, last.vid, Or.inl ⟨?_, rfl⟩⟩
      · simp [popView, hnotle, hL]
        split <;> simp
      · simp [popView, hnotle, hL]
        split <;> simp
      · simp [popView, hnotle, hL]
        split <;> simp [List.length_dropLast] <;> omega
      · simp [popView, hnotle, hL]
        split <;> simp
    · have hw' : decide (a = ViewAnimation.fade) = false := by simp [hw]
      have hlt : s.viewStack.length - 2 < s.viewStack.length := by omega
      have hsome : s.viewStack[s.viewStack.length - 2]?
          = some (s.viewStack[s.viewStack.length - 2]) := List.getElem?_eq_getElem hlt
      refine ⟨?_, ?_, ?_, last.vid, Or.inr ⟨?_, hw⟩⟩
      · simp [popView, hnotle, hL, hw', h2, hideView_viewStack_eq,
          setForceTranslucent_viewStack_eq, List.getElem?_map, hsome]
        split <;> simp
      · simp [popView, hnotle, hL, hw', h2, hideView_viewStack_eq,
          setForceTranslucent_viewStack_eq, List.getElem?_map, hsome]
        split <;> simp
      · simp [popView, hnotle, hL, hw', h2, hideView_viewStack_eq,
          setForceTranslucent_viewStack_eq, List.getElem?_map, hsome]
        split <;> simp [List.length_dropLast] <;> omega
      · simp [popView, hnotle, hL, hw', h2, hideView_viewStack_eq,
          setForceTranslucent_viewStack_eq, List.getElem?_map, hsome]
        split <;> simp

theorem runN_two_of_pending_nil (s : AppState) (h : s.pending = []) : runN 2 s = s := by
  rw [runN_two_eq, fireNext_of_pending_nil s h, fireNext_of_pending_nil s h]

/-- A pushView together with its completion callbacks: the stack grows by
one, the focus stack grows by one exactly when the stack was non-empty, the
pending queue drains, and the input-block counter returns to its previous
value after having been exactly one higher right after the call. -/
theorem push_complete_char (df : Nat → Option Nat) (v : SView) (a : ViewAnimation)
    (s : AppState) (hp : s.pending = []) :
    (runN 2 (pushView df v a s)).pending = [] ∧
    (runN 2 (pushView df v a s)).viewStack.length = s.viewStack.length + 1 ∧
    (runN 2 (pushView df v a s)).focusStack.length
      = s.focusStack.length + (if s.viewStack.length = 0 then 0 else 1) ∧
    (0 ≤ s.blockInputsTokens →
      (runN 2 (pushView df v a s)).blockInputsTokens = s.blockInputsTokens) ∧
    (pushView df v a s).blockInputsTokens = s.blockInputsTokens + 1 := by
  obtain ⟨htok1, hlen1, hne1, hfs1, hpend1⟩ := pushView_char df v a s
  rcases hpend1 with h | h | h <;> rw [hp] at h <;> simp only [List.nil_append] at h
  · obtain ⟨hp2, hv2, hf2, ht2⟩ := runN_two_shape_unblock _ h
    refine ⟨hp2, ?_, ?_, ?_, htok1⟩
    · rw [hv2]; exact hlen1
    · rw [hf2]; exact hfs1
    · intro ht
      have hpos : 0 < (pushView df v a s).blockInputsTokens := by rw [htok1]; omega
      rw [ht2, if_pos hpos, htok1]; omega
  · obtain ⟨hp2, hv2, hf2, ht2⟩ := runN_two_shape_unblock_pushHide _ a h hne1
    refine ⟨hp2, ?_, ?_, ?_, htok1⟩
    · rw [hv2]; exact hlen1
    · rw [hf2]; exact hfs1
    · intro ht
      have hpos : 0 < (pushView df v a s).blockInputsTokens := by rw [htok1]; omega
      rw [ht2, if_pos hpos, htok1]; omega
  · obtain ⟨hp2, hv2, hf2, ht2⟩ := runN_two_shape_pushHide_wait _ a h hne1
    refine ⟨hp2, ?_, ?_, ?_, htok1⟩
    · rw [hv2]; exact hlen1
    · rw [hf2]; exact hfs1
    · intro ht
      have hpos : 0 < (pushView df v a s).blockInputsTokens := by rw [htok1]; omega
      rw [ht2, if_pos hpos, htok1]; omega

/-- A popView on a stack with at least two views together with its
completion callbacks: the stack and the focus stack each shrink by one, the
pending queue drains, and the input-block counter returns to its previous
value after having been exactly one higher right after the call. -/
theorem pop_complete_char (df : Nat → Option Nat) (a : ViewAnimation) (cbId : Nat)
    (s : AppState) (hp : s.pending = []) (h2 : 1 < s.viewStack.length) :
    (runN 2 (popView df a cbId s)).pending = [] ∧
    (runN 2 (popView df a cbId s)).viewStack.length = s.viewStack.length - 1 ∧
    (runN 2 (popView df a cbId s)).focusStack.length = s.focusStack.length - 1 ∧
    (0 ≤ s.blockInputsTokens →
      (runN 2 (popView df a cbId s)).blockInputsTokens = s.blockInputsTokens) ∧
    (popView df a cbId s).blockInputsTokens = s.blockInputsTokens + 1 := by
  obtain ⟨ptok, plen, pfs, lastId, hsh⟩ := popView_char df a cbId s h2
  rcases hsh with ⟨hps, _⟩ | ⟨hps, _⟩ <;> rw [hp] at hps <;> simp only [List.nil_append] at hps
  · obtain ⟨fp, fv, ffs, ftok⟩ := runN_two_shape_popHide _ a true lastId cbId hps
    refine ⟨fp, ?_, ?_, ?_, ptok⟩
    · rw [fv, plen]
    · rw [ffs, pfs]
    · intro ht
      have hpos : 0 < (popView df a cbId s).blockInputsTokens := by rw [ptok]; omega
      rw [ftok, if_pos hpos, ptok]; omega
  · obtain ⟨fp, fv, ffs, ftok⟩ := runN_two_shape_popHide_user _ a lastId cbId cbId hps
    refine ⟨fp, ?_, ?_, ?_, ptok⟩
    · rw [fv, plen]
    · rw [ffs, pfs]
    · intro ht
      have hpos : 0 < (popView df a cbId s).blockInputsTokens := by rw [ptok]; omega
      rw [ftok, if_pos hpos, ptok]; omega

/-- C1: for every pushView followed eventually by its paired popView, after
both transitions' animation completion callbacks have fired,
blockInputsTokens equals its value before the pushView; each of pushView
and popView increments the counter exactly once and its transition's
completion decrements it exactly once, in every branch (fadeOut or not,
wait or not — both animations range over all values, and the starting
state over all quiescent states). -/
theorem push_pop_blockInputsTokens_restored (df : Nat → Option Nat) (v : SView)
    (a₁ a₂ : ViewAnimation) (cbId : Nat) (s : AppState)
    (hp : s.pending = []) (ht : 0 ≤ s.blockInputsTokens) :
    (pushView df v a₁ s).blockInputsTokens = s.blockInputsTokens + 1 ∧
    (runN 2 (pushView df v a₁ s)).pending = [] ∧
    (runN 2 (pushView df v a₁ s)).blockInputsTokens = s.blockInputsTokens ∧
    (1 < (runN 2 (pushView df v a₁ s)).viewStack.length →
      (popView df a₂ cbId (runN 2 (pushView df v a₁ s))).blockInputsTokens
        = s.blockInputsTokens + 1) ∧
    (runN 2 (popView df a₂ cbId (runN 2 (pushView df v a₁ s)))).pending = [] ∧
    (runN 2 (popView df a₂ cbId (runN 2 (pushView df v a₁ s)))).blockInputsTokens
      = s.blockInputsTokens := by
  obtain ⟨hRp, hRlen, hRfs, hRtokf, htok1⟩ := push_complete_char df v a₁ s hp
  have hRtok := hRtokf ht
  by_cases h2 : 1 < (runN 2 (pushView df v a₁ s)).viewStack.length
  · have hRt0 : 0 ≤ (runN 2 (pushView df v a₁ s)).blockInputsTokens := by rw [hRtok]; exact ht
    obtain ⟨fp, flen, ffs, ftokf, ptok⟩ := pop_complete_char df a₂ cbId _ hRp h2
    refine ⟨htok1, hRp, hRtok, ?_, fp, ?_⟩
    · intro _; rw [ptok, hRtok]
    · rw [ftokf hRt0, hRtok]
  · have hle : (runN 2 (pushView df v a₁ s)).viewStack.length ≤ 1 := by omega
    rw [popView_eq_self_of_le_one df a₂ cbId _ hle, runN_two_of_pending_nil _ hRp]
    exact ⟨htok1, hRp, hRtok, fun hcon => absurd hcon h2, hRp, hRtok⟩

theorem push_pop_blockInputsTokens_restored_witness :
    (Stack.stateRoot.pending = [] ∧ 0 ≤ Stack.stateRoot.blockInputsTokens) ∧
    (runN 2 (popView dfId ViewAnimation.fade 3
        (runN 2 (pushView dfId (sview 1) ViewAnimation.fade stateRoot)))).blockInputsTokens
      = stateRoot.blockInputsTokens :=
  ⟨⟨rfl, by decide⟩,
    (push_pop_blockInputsTokens_restored dfId (sview 1) ViewAnimation.fade ViewAnimation.fade 3
      stateRoot rfl (by decide)).2.2.2.2.2⟩

/-- One completed stack operation preserves quiescence, counter
non-negativity and the focus-stack/view-stack length relation. -/
theorem applySOp_inv (df : Nat → Option Nat) (op : SOp) (s : AppState)
    (h1 : s.pending = []) (h2 : 0 ≤ s.blockInputsTokens)
    (h3 : s.viewStack.length = s.focusStack.length + 1) :
    (applySOp df op s).pending = [] ∧
    0 ≤ (applySOp df op s).blockInputsTokens ∧
    (applySOp df op s).viewStack.length = (applySOp df op s).focusStack.length + 1 := by
  cases op with
  | push v a =>
    simp only [applySOp]
    obtain ⟨i1, i2, i3, i4, _⟩ := push_complete_char df v a s h1
    have h0 : ¬s.viewStack.length = 0 := by omega
    rw [if_neg h0] at i3
    refine ⟨i1, ?_, ?_⟩
    · rw [i4 h2]; exact h2
    · omega
  | pop a cbId =>
    simp only [applySOp]
    by_cases hgt : 1 < s.viewStack.length
    · obtain ⟨i1, i2, i3, i4, _⟩ := pop_complete_char df a cbId s h1 hgt
      refine ⟨i1, ?_, ?_⟩
      · rw [i4 h2]; exact h2
      · omega
    · have hle : s.viewStack.length ≤ 1 := by omega
      rw [popView_eq_self_of_le_one df a cbId s hle, runN_two_of_pending_nil s h1]
      exact ⟨h1, h2, h3⟩

/-- C2: after any sequence of completed (non-in-flight) pushView/popView
operations starting from an initialized state (root view pushed, so the
view stack is one longer than the focus stack, no pending callbacks, a
non-negative input-block counter), the focus stack stays exactly one entry
shorter than the view stack: pushView adds a focus-stack entry exactly when
the stack was non-empty, and popView removes exactly one when it pops. -/
theorem focusStack_tracks_viewStack (df : Nat → Option Nat) (ops : List SOp) (s : AppState)
    (h1 : s.pending = []) (h2 : 0 ≤ s.blockInputsTokens)
    (h3 : s.viewStack.length = s.focusStack.length + 1) :
    (runSOps df ops s).viewStack.length = (runSOps df ops s).focusStack.length + 1 := by
  induction ops generalizing s with
  | nil => exact h3
  | cons op ops ih =>
    obtain ⟨i1, i2, i3⟩ := applySOp_inv df op s h1 h2 h3
    exact ih (applySOp df op s) i1 i2 i3

theorem focusStack_tracks_viewStack_witness :
    (Stack.stateRoot.pending = [] ∧ 0 ≤ Stack.stateRoot.blockInputsTokens ∧
      Stack.stateRoot.viewStack.length = Stack.stateRoot.focusStack.length + 1) ∧
    (runSOps dfId
        [SOp.push (sview 1) ViewAnimation.fade, SOp.push (sview 2) ViewAnimation.slideLeft,
          SOp.pop ViewAnimation.fade 0] stateRoot).viewStack.length
      = (runSOps dfId
          [SOp.push (sview 1) ViewAnimation.fade, SOp.push (sview 2) ViewAnimation.slideLeft,
            SOp.pop ViewAnimation.fade 0] stateRoot).focusStack.length + 1 :=
  ⟨⟨rfl, by decide, by decide⟩,
    focusStack_tracks_viewStack dfId
      [SOp.push (sview 1) ViewAnimation.fade, SOp.push (sview 2) ViewAnimation.slideLeft,
        SOp.pop ViewAnimation.fade 0] stateRoot rfl (by decide) (by decide)⟩

/-- C3: when the view stack holds at most one view, popView changes
nothing at all — the state (view stack, focus stack, current focus,
input-block counter, pending callbacks and the event log recording
willDisappear/hide/destruction) is returned untouched, for every animation
and callback. -/
theorem popView_noop_on_small_stack (df : Nat → Option Nat) (a : ViewAnimation)
    (cbId : Nat) (s : AppState) (h : s.viewStack.length ≤ 1) :
    popView df a cbId s = s :=
  popView_eq_self_of_le_one df a cbId s h

theorem popView_noop_on_small_stack_witness :
    Stack.stateRoot.viewStack.length ≤ 1 ∧
    popView dfId ViewAnimation.fade 7 stateRoot = stateRoot :=
  ⟨by decide, popView_noop_on_small_stack dfId ViewAnimation.fade 7 stateRoot (by decide)⟩

/-- C9: blockInputsTokens never becomes negative — unblockInputs
decrements only when the counter is strictly positive and is a silent
no-op at zero, so any sequence of blockInputs/unblockInputs calls keeps
the counter non-negative. -/
theorem blockInputsTokens_nonneg (ops : List TokOp) (s : AppState)
    (h : 0 ≤ s.blockInputsTokens) :
    0 ≤ (runTokOps ops s).blockInputsTokens ∧
    (s.blockInputsTokens = 0 → unblockInputs s = s) ∧
    (0 < s.blockInputsTokens →
      (unblockInputs s).blockInputsTokens = s.blockInputsTokens - 1) := by
  refine ⟨?_, ?_, ?_⟩
  · induction ops generalizing s with
    | nil => exact h
    | cons op ops ih =>
      refine ih (applyTokOp op s) ?_
      cases op with
      | block => simp [applyTokOp]; omega
      | unblock =>
        simp [applyTokOp, unblockInputs_tokens]
        split <;> omega
  · intro h0
    simp [unblockInputs, h0]
  · intro hpos
    simp [unblockInputs, hpos]

theorem blockInputsTokens_nonneg_witness :
    0 ≤ Stack.stateRoot.blockInputsTokens ∧
    0 ≤ (runTokOps [TokOp.unblock, TokOp.block, TokOp.unblock, TokOp.unblock]
        stateRoot).blockInputsTokens :=
  ⟨by decide,
    (blockInputsTokens_nonneg [TokOp.unblock, TokOp.block, TokOp.unblock, TokOp.unblock]
      stateRoot (by decide)).1⟩

end Stack

namespace Input

theorem processActions_mem (button : Nat) (as : List PAction) (ck : List Nat)
    (inv : List (Nat × Bool)) (h : button ∈ ck) :
    processActions button as ck inv = (ck, inv) := by
  induction as with
  | nil => rfl
  | cons a rest ih =>
    unfold processActions
    by_cases h1 : a.key ≠ button
    · simp only [if_pos h1]; exact ih
    · have hk : a.key = button := by
        revert h1; by_cases hc : a.key = button <;> simp [hc]
      have h2 : a.key ∈ ck := hk ▸ h
      simp only [if_neg h1, if_pos h2]; exact ih

theorem handleActionGo_mem (button : Nat) (chain : List PNode) (ck : List Nat)
    (inv : List (Nat × Bool)) (h : button ∈ ck) :
    handleActionGo button chain ck inv = (ck, inv) := by
  induction chain with
  | nil => rfl
  | cons n rest ih =>
    unfold handleActionGo
    rw [processActions_mem button n.actions ck inv h]
    exact ih

theorem processActions_logOk (button : Nat) (as : List PAction) (ck : List Nat)
    (inv : List (Nat × Bool)) (h : LogOk button ck inv) :
    LogOk button (processActions button as ck inv).1 (processActions button as ck inv).2 := by
  induction as generalizing ck inv with
  | nil => exact h
  | cons a rest ih =>
    unfold processActions
    by_cases h1 : a.key ≠ button
    · simp only [if_pos h1]; exact ih ck inv h
    · have hk : a.key = button := by
        revert h1; by_cases hc : a.key = button <;> simp [hc]
      by_cases h2 : a.key ∈ ck
      · simp only [if_neg h1, if_pos h2]; exact ih ck inv h
      · simp only [if_neg h1, if_neg h2]
        by_cases h3 : a.available = true
        · rw [if_pos h3]
          by_cases h4 : a.result = true
        -- a consuming invocation: the set was necessarily still empty
          · rw [if_pos h4]
            have hck : ck = [] ∧ ∀ e ∈ inv, e.2 = false := by
              rcases h with h | ⟨hck, _⟩
              · exact h
              · exact absurd (by rw [hck, hk]; exact List.mem_singleton.mpr rfl) h2
            refine ih _ _ (Or.inr ⟨by rw [hck.1, hk], inv, (a.aid, true), rfl, rfl, ?_⟩)
            exact hck.2
          · rw [if_neg h4]
            have hres : a.result = false := by
              revert h4; cases a.result <;> simp
            have hck : ck = [] ∧ ∀ e ∈ inv, e.2 = false := by
              rcases h with h | ⟨hck, _⟩
              · exact h
              · exact absurd (by rw [hck, hk]; exact List.mem_singleton.mpr rfl) h2
            refine ih _ _ (Or.inl ⟨hck.1, ?_⟩)
            intro e he
            rcases List.mem_append.mp he with he | he
            · exact hck.2 e he
            · rw [List.mem_singleton.mp he]
        · rw [if_neg h3]; exact ih ck inv h

theorem handleActionGo_logOk (button : Nat) (chain : List PNode) (ck : List Nat)
    (inv : List (Nat × Bool)) (h : LogOk button ck inv) :
    LogOk button (handleActionGo button chain ck inv).1
      (handleActionGo button chain ck inv).2 := by
  induction chain generalizing ck inv with
  | nil => exact h
  | cons n rest ih =>
    unfold handleActionGo
    exact ih _ _ (processActions_logOk button n.actions ck inv h)

/-- C4: a single handleAction call invokes at most one listener that
consumes the key — the consuming invocation, when it exists, is the last
invocation of the pass, so no matching action at any node closer to the
root runs after a listener returns true (all earlier invocations returned
false) — and handleAction returns true exactly when some listener consumed
the key. -/
theorem handleAction_single_consumer (button : Nat) (chain : List PNode) :
    ((∀ e ∈ (handleAction button chain).2, e.2 = false) ∨
      ∃ pre x, (handleAction button chain).2 = pre ++ [x] ∧ x.2 = true ∧
        ∀ e ∈ pre, e.2 = false) ∧
    ((handleAction button chain).1 = true ↔
      ∃ e ∈ (handleAction button chain).2, e.2 = true) := by
  have h := handleActionGo_logOk button chain [] [] (Or.inl ⟨rfl, by simp⟩)
  rcases h with ⟨hck, hinv⟩ | ⟨hck, pre, x, hinv, hx, hpre⟩
  · constructor
    · exact Or.inl fun e he => hinv e (by simpa [handleAction] using he)
    · constructor
      · intro hc
        exact absurd hc (by simp [handleAction, hck])
      · rintro ⟨e, he, htrue⟩
        have hf := hinv e (by simpa [handleAction] using he)
        rw [hf] at htrue
        exact absurd htrue (by simp)
  · constructor
    · refine Or.inr ⟨pre, x, ?_, hx, hpre⟩
      simpa [handleAction] using hinv
    · constructor
      · intro _
        refine ⟨x, ?_, hx⟩
        simp [handleAction, hinv]
      · intro _
        simp [handleAction, hck]

theorem handleAction_single_consumer_witness :
    (handleAction 5 chainW).1 = true :=
  (handleAction_single_consumer 5 chainW).2.mpr ⟨((2 : Nat), true), by decide, rfl⟩

@[simp]
theorem giveFocus_repetitionOldFocus (env : NavEnv) (v : List PNode) (s : InputState) :
    (giveFocus env v s).repetitionOldFocus = s.repetitionOldFocus := by
  unfold giveFocus; split <;> split <;> rfl

@[simp]
theorem giveFocus_blockInputsTokens (env : NavEnv) (v : List PNode) (s : InputState) :
    (giveFocus env v s).blockInputsTokens = s.blockInputsTokens := by
  unfold giveFocus; split <;> split <;> rfl

@[simp]
theorem logActions_repetitionOldFocus (button : Nat) (s : InputState) :
    (logActions button s).repetitionOldFocus = s.repetitionOldFocus := rfl

@[simp]
theorem logActions_currentFocus (button : Nat) (s : InputState) :
    (logActions button s).currentFocus = s.currentFocus := rfl

@[simp]
theorem navigate_repetitionOldFocus (env : NavEnv) (dir : FocusDirection) (s : InputState) :
    (navigate env dir s).repetitionOldFocus = s.repetitionOldFocus := by
  rcases h : s.currentFocus with _ | ⟨f, _ | ⟨p, rest⟩⟩ <;> simp [navigate, h]
  split <;> simp

@[simp]
theorem dispatchButton_repetitionOldFocus (env : NavEnv) (button : Nat) (s : InputState) :
    (dispatchButton env button s).repetitionOldFocus = s.repetitionOldFocus := by
  unfold dispatchButton
  split
  · rfl
  · split
    · simp
    · split
      · simp
      · split
        · simp
        · split <;> simp

/-- C5: navigate is a no-op when there is no current focus or the current
focus has no parent; and whenever the upward walk finds no candidate, the
state is unchanged except for the rejection feedback cue shakeHighlight,
played on the original focus in the requested direction (in particular the
current focus is unchanged). -/
theorem navigate_failure_noop (env : NavEnv) (dir : FocusDirection) (s : InputState) :
    (s.currentFocus = [] → navigate env dir s = s) ∧
    (∀ f, s.currentFocus = [f] → navigate env dir s = s) ∧
    (∀ f p rest, s.currentFocus = f :: p :: rest →
      navWhile env dir (f :: p :: rest) (env.nextFocus p.vid dir f.userData) = [] →
      navigate env dir s = { s with log := s.log ++ [IEvent.shake f.vid dir] }) := by
  refine ⟨?_, ?_, ?_⟩
  · intro h; simp [navigate, h]
  · intro f h; simp [navigate, h]
  · intro f p rest h hw
    simp [navigate, h, hw]

theorem navigate_failure_noop_witness :
    (istateW [] [] 0).currentFocus = [] ∧
    (istateW [pnode 1 [], pnode 2 []] [] 0).currentFocus = pnode 1 [] :: pnode 2 [] :: [] ∧
    navWhile envNone FocusDirection.left (pnode 1 [] :: pnode 2 [] :: [])
      (envNone.nextFocus (pnode 2 []).vid FocusDirection.left (pnode 1 []).userData) = [] ∧
    navigate envNone FocusDirection.down (istateW [] [] 0) = istateW [] [] 0 ∧
    navigate envNone FocusDirection.left (istateW [pnode 1 [], pnode 2 []] [] 0)
      = { istateW [pnode 1 [], pnode 2 []] [] 0
          with log := (istateW [pnode 1 [], pnode 2 []] [] 0).log
            ++ [IEvent.shake (pnode 1 []).vid FocusDirection.left] } :=
  ⟨rfl, rfl, rfl,
    (navigate_failure_noop envNone FocusDirection.down (istateW [] [] 0)).1 rfl,
    (navigate_failure_noop envNone FocusDirection.left
      (istateW [pnode 1 [], pnode 2 []] [] 0)).2.2 (pnode 1 []) (pnode 2 []) [] rfl rfl⟩

/-- C6: while blockInputsTokens is positive, a gamepad button press is
dropped entirely — onGamepadButtonPressed returns the state unchanged (no
action dispatched, no navigation, focus and log untouched), for every
button and repeat flag. -/
theorem blocked_inputs_drop_buttons (env : NavEnv) (button : Nat) (repeating : Bool)
    (s : InputState) (h : 0 < s.blockInputsTokens) :
    onGamepadButtonPressed env button repeating s = s := by
  have hne : s.blockInputsTokens ≠ 0 := by omega
  simp [onGamepadButtonPressed, hne]

theorem blocked_inputs_drop_buttons_witness :
    0 < (istateW chainW [] 1).blockInputsTokens ∧
    onGamepadButtonPressed envNone 5 false (istateW chainW [] 1) = istateW chainW [] 1 :=
  ⟨by norm_num [istateW],
    blocked_inputs_drop_buttons envNone 5 false (istateW chainW [] 1) (by norm_num [istateW])⟩

/-- C10: an auto-repeating activation is dropped whenever the current
focus equals the recorded previous focus — onGamepadButtonPressed with
repeating set returns the state unchanged — and every press that does go
through records the entry current focus into repetitionOldFocus. -/
theorem repeating_press_dropped (env : NavEnv) (button : Nat) (s : InputState) :
    (s.repetitionOldFocus = s.currentFocus →
      onGamepadButtonPressed env button true s = s) ∧
    (s.blockInputsTokens = 0 → s.repetitionOldFocus ≠ s.currentFocus →
      ∀ repeating,
        (onGamepadButtonPressed env button repeating s).repetitionOldFocus
          = s.currentFocus) := by
  constructor
  · intro h
    unfold onGamepadButtonPressed
    split
    · rfl
    · rw [if_pos ⟨rfl, h⟩]
  · intro h0 hne repeating
    unfold onGamepadButtonPressed
    rw [if_neg (by omega), if_neg (by rintro ⟨_, hcon⟩; exact hne hcon),
      dispatchButton_repetitionOldFocus]

theorem repeating_press_dropped_witness :
    (istateW chainW chainW 0).repetitionOldFocus = (istateW chainW chainW 0).currentFocus ∧
    onGamepadButtonPressed envNone 5 true (istateW chainW chainW 0) = istateW chainW chainW 0 ∧
    (istateW chainW [] 0).blockInputsTokens = 0 ∧
    (istateW chainW [] 0).repetitionOldFocus ≠ (istateW chainW [] 0).currentFocus ∧
    (onGamepadButtonPressed envNone 5 true (istateW chainW [] 0)).repetitionOldFocus
      = (istateW chainW [] 0).currentFocus :=
  ⟨rfl,
    (repeating_press_dropped envNone 5 (istateW chainW chainW 0)).1 rfl,
    rfl,
    by decide,
    (repeating_press_dropped envNone 5 (istateW chainW [] 0)).2 rfl (by decide) true⟩

end Input

namespace Frame

theorem collectLoop_spec (l : List Stack.SView) :
    ∃ k ≤ l.length, (collectLoop l).reverse = l.reverse.drop k ∧
      (∀ v ∈ ((collectLoop l).reverse).drop 1, Stack.isTranslucent v = true) ∧
      (k = 0 ∨ ∃ v t, (collectLoop l).reverse = v :: t ∧ Stack.isTranslucent v = false) := by
  induction l with
  | nil => exact ⟨0, by simp, by simp [collectLoop], by simp [collectLoop], Or.inl rfl⟩
  | cons v rest ih =>
    by_cases ht : Stack.isTranslucent v = true
    · obtain ⟨k, hk, hdrop, htail, hhead⟩ := ih
      refine ⟨k, ?_, ?_, ?_, ?_⟩
      · simp; omega
      · have hle : k ≤ rest.reverse.length := by simp [hk]
        simp only [collectLoop, ht, if_pos, List.reverse_cons,
          List.drop_append_of_le_length hle, List.reverse_cons]
        rw [hdrop]
      · simp only [collectLoop, ht, if_pos, List.reverse_cons]
        rcases hA : (collectLoop rest).reverse with _ | ⟨a, t⟩
        · simp
        · intro x hx
          simp only [hA, List.cons_append, List.drop_succ_cons, List.drop_zero] at hx
          rcases List.mem_append.mp hx with hx | hx
          · exact htail x (by simp [hA, hx])
          · rw [List.mem_singleton.mp hx]; exact ht
      · rcases hhead with h0 | ⟨w, t, hwt, hw⟩
        · exact Or.inl h0
        · refine Or.inr ⟨w, t ++ [v], ?_, hw⟩
          simp only [collectLoop, ht, if_pos, List.reverse_cons, hwt, List.cons_append]
    · have ht' : Stack.isTranslucent v = false := by
        revert ht; cases Stack.isTranslucent v <;> simp
      refine ⟨rest.length, by simp, ?_, by simp [collectLoop, ht'], ?_⟩
      · have : (rest.reverse ++ [v]).drop rest.reverse.length = [v] := List.drop_left _ _
        simp only [collectLoop, ht', if_neg, Bool.false_eq_true, List.reverse_cons]
        simpa using this
      · exact Or.inr ⟨v, [], by simp [collectLoop, ht'], ht'⟩

/-- C7: the per-frame render pass draws exactly the topmost contiguous
suffix of the view stack ending at (and including) the first view from the
top that is not translucent — views below it are not drawn — and the
collected views are drawn bottom-to-top: the draw order is a suffix
viewStack.drop k whose first element is not translucent (unless the whole
stack is drawn, k = 0) and whose remaining elements, the views above it,
are all translucent. -/
theorem frame_draws_topmost_opaque_suffix (viewStack : List Stack.SView) :
    ∃ k, drawOrder viewStack = viewStack.drop k ∧
      (∀ v ∈ (drawOrder viewStack).drop 1, Stack.isTranslucent v = true) ∧
      (k = 0 ∨ ∃ v t, drawOrder viewStack = v :: t ∧ Stack.isTranslucent v = false) := by
  obtain ⟨k, hk, hdrop, htail, hhead⟩ := collectLoop_spec viewStack.reverse
  rw [List.reverse_reverse] at hdrop
  exact ⟨k, hdrop, htail, hhead⟩

end Frame

namespace Loop

theorem scanStep_buttons (kDown : Nat) (acc : LoopState × Bool) (i j : Nat) :
    (scanStep kDown acc i).1.buttons j
      = if j = i then buttonDown kDown i else acc.1.buttons j := rfl

theorem scanStep_timer (kDown : Nat) (acc : LoopState × Bool) (i : Nat) :
    (scanStep kDown acc i).1.repeatingButtonTimer
      = if acc.1.buttons i ≠ buttonDown kDown i then 0
        else acc.1.repeatingButtonTimer := rfl

theorem scanStep_bpt (kDown : Nat) (acc : LoopState × Bool) (i : Nat) :
    (scanStep kDown acc i).1.buttonPressTime
      = if acc.1.buttons i ≠ buttonDown kDown i then 0
        else acc.1.buttonPressTime := rfl

theorem scanStep_dispatches (kDown : Nat) (acc : LoopState × Bool) (i : Nat) :
    (scanStep kDown acc i).1.dispatches
      = (if buttonDown kDown i = true
            ∧ (acc.1.buttons i ≠ buttonDown kDown i ∨ repeatFlag acc.1 = true)
          then acc.1.dispatches ++ [(2 ^ i, repeatFlag acc.1)]
          else acc.1.dispatches) := rfl

theorem scanStep_any (kDown : Nat) (acc : LoopState × Bool) (i : Nat) :
    (scanStep kDown acc i).2 = (acc.2 || buttonDown kDown i) := rfl

theorem two_pow_land_two_pow_of_ne (i j : Nat) (h : i ≠ j) : 2 ^ i &&& 2 ^ j = 0 := by
  apply Nat.eq_of_testBit_eq
  intro k
  rw [Nat.testBit_and, Nat.zero_testBit]
  rcases eq_or_ne k i with rfl | hk
  · rw [Nat.testBit_two_pow_of_ne (show j ≠ k from fun hc => h hc.symm), Bool.and_false]
  · rw [Nat.testBit_two_pow_of_ne (show i ≠ k from fun hc => hk hc.symm), Bool.false_and]

/-- A single-button mask holds exactly its own button. -/
theorem buttonDown_pow (i j : Nat) : buttonDown (2 ^ i) j = decide (j = i) := by
  unfold buttonDown
  rcases eq_or_ne j i with rfl | h
  · rw [Nat.and_self]
    simp [Nat.pos_iff_ne_zero, pow_ne_zero]
  · rw [two_pow_land_two_pow_of_ne i j (fun hc => h hc.symm)]
    simp [h]

theorem fold_any (kDown : Nat) (l : List Nat) :
    ∀ acc : LoopState × Bool,
      (l.foldl (scanStep kDown) acc).2 = (acc.2 || l.any (buttonDown kDown)) := by
  induction l with
  | nil => intro acc; simp
  | cons j l ih =>
    intro acc
    rw [List.foldl_cons, ih, scanStep_any]
    simp [Bool.or_assoc]

theorem fold_preserves_zero (kDown : Nat) (l : List Nat) :
    ∀ acc : LoopState × Bool,
      acc.1.repeatingButtonTimer = 0 → acc.1.buttonPressTime = 0 →
      (l.foldl (scanStep kDown) acc).1.repeatingButtonTimer = 0 ∧
        (l.foldl (scanStep kDown) acc).1.buttonPressTime = 0 := by
  induction l with
  | nil => intro acc h1 h2; exact ⟨h1, h2⟩
  | cons j l ih =>
    intro acc h1 h2
    rw [List.foldl_cons]
    refine ih _ ?_ ?_
    · rw [scanStep_timer]; split <;> simp [h1]
    · rw [scanStep_bpt]; split <;> simp [h2]

/-- Whenever some button in the scanned range changed status, the
per-button loop leaves the repeat timer and buttonPressTime at zero. -/
theorem fold_zero_of_change (kDown : Nat) (l : List Nat) :
    ∀ acc : LoopState × Bool,
      (∃ j ∈ l, acc.1.buttons j ≠ buttonDown kDown j) →
      (l.foldl (scanStep kDown) acc).1.repeatingButtonTimer = 0 ∧
        (l.foldl (scanStep kDown) acc).1.buttonPressTime = 0 := by
  induction l with
  | nil =>
    rintro acc ⟨j, hj, _⟩
    exact absurd hj (List.not_mem_nil j)
  | cons j l ih =>
    rintro acc ⟨j2, hj2, hch⟩
    rw [List.foldl_cons]
    by_cases hc : acc.1.buttons j = buttonDown kDown j
    · have hj2l : j2 ∈ l := by
        rcases List.mem_cons.mp hj2 with rfl | hmem
        · exact absurd hc hch
        · exact hmem
      have hne : j2 ≠ j := by
        rintro rfl; exact hch hc
      refine ih _ ⟨j2, hj2l, ?_⟩
      rw [scanStep_buttons, if_neg hne]
      exact hch
    · refine fold_preserves_zero kDown l _ ?_ ?_
      · rw [scanStep_timer, if_pos hc]
      · rw [scanStep_bpt, if_pos hc]

/-- Skipped buttons: folding the per-button body over indices different
from the single held button i, starting from a state where every other
button is released, changes nothing observable. -/
theorem fold_skip (i : Nat) (l : List Nat) (hmem : ∀ j ∈ l, j ≠ i) :
    ∀ acc : LoopState × Bool, (∀ j, j ≠ i → acc.1.buttons j = false) →
      (l.foldl (scanStep (2 ^ i)) acc).1.repeatingButtonTimer
          = acc.1.repeatingButtonTimer ∧
      (l.foldl (scanStep (2 ^ i)) acc).1.buttonPressTime = acc.1.buttonPressTime ∧
      (l.foldl (scanStep (2 ^ i)) acc).1.dispatches = acc.1.dispatches ∧
      (∀ j, (l.foldl (scanStep (2 ^ i)) acc).1.buttons j = acc.1.buttons j) ∧
      (l.foldl (scanStep (2 ^ i)) acc).2 = acc.2 := by
  induction l with
  | nil => intro acc _; exact ⟨rfl, rfl, rfl, fun _ => rfl, rfl⟩
  | cons j l ih =>
    intro acc hb
    have hj : j ≠ i := hmem j (List.mem_cons_self j l)
    have hdown : buttonDown (2 ^ i) j = false := by
      rw [buttonDown_pow]; simp [hj]
    have hbj : acc.1.buttons j = false := hb j hj
    rw [List.foldl_cons]
    obtain ⟨i1, i2, i3, i4, i5⟩ := ih (fun j2 hj2 => hmem j2 (List.mem_cons_of_mem j hj2))
      (scanStep (2 ^ i) acc j)
      (by
        intro j2 hj2
        rw [scanStep_buttons]
        rcases eq_or_ne j2 j with rfl | hne
        · rw [if_pos rfl, hdown]
        · rw [if_neg hne]; exact hb j2 hj2)
    refine ⟨?_, ?_, ?_, ?_, ?_⟩
    · rw [i1, scanStep_timer, if_neg (by rw [hdown, hbj]; simp)]
    · rw [i2, scanStep_bpt, if_neg (by rw [hdown, hbj]; simp)]
    · rw [i3, scanStep_dispatches, if_neg (by rw [hdown]; simp)]
    · intro j2
      rw [i4 j2, scanStep_buttons]
      rcases eq_or_ne j2 j with rfl | hne
      · rw [if_pos rfl, hdown, hbj]
      · rw [if_neg hne]
    · rw [i5, scanStep_any, hdown, Bool.or_false]

theorem mainLoopScan_timer (mb kDown : Nat) (now : Int) (s : LoopState) :
    (mainLoopScan mb kDown now s).repeatingButtonTimer
      = if ((List.range mb).foldl (scanStep kDown) (s, false)).2 = true
            ∧ 1000 < now - ((List.range mb).foldl (scanStep kDown) (s, false)).1.buttonPressTime
        then ((List.range mb).foldl (scanStep kDown) (s, false)).1.repeatingButtonTimer + 1
        else ((List.range mb).foldl (scanStep kDown) (s, false)).1.repeatingButtonTimer := rfl

theorem mainLoopScan_bpt (mb kDown : Nat) (now : Int) (s : LoopState) :
    (mainLoopScan mb kDown now s).buttonPressTime
      = if ((List.range mb).foldl (scanStep kDown) (s, false)).2 = true
            ∧ 1000 < now - ((List.range mb).foldl (scanStep kDown) (s, false)).1.buttonPressTime
        then now
        else ((List.range mb).foldl (scanStep kDown) (s, false)).1.buttonPressTime := rfl

theorem mainLoopScan_dispatches (mb kDown : Nat) (now : Int) (s : LoopState) :
    (mainLoopScan mb kDown now s).dispatches
      = ((List.range mb).foldl (scanStep kDown) (s, false)).1.dispatches := rfl

theorem mainLoopScan_buttons (mb kDown : Nat) (now : Int) (s : LoopState) :
    (mainLoopScan mb kDown now s).buttons
      = ((List.range mb).foldl (scanStep kDown) (s, false)).1.buttons := rfl

/-- Zeroing on a status change: whenever some button's held status differs
from its stored status, the scan leaves the repeat timer at 0 — or at 1
when a button is held and the 1000-microsecond wall gate passed, because
the shared end-of-scan increment runs after the reset. -/
theorem scan_reset (mb kDown : Nat) (now : Int) (s : LoopState)
    (h : ∃ j ∈ List.range mb, s.buttons j ≠ buttonDown kDown j) :
    (mainLoopScan mb kDown now s).repeatingButtonTimer
      = if (List.range mb).any (buttonDown kDown) = true ∧ 1000 < now then 1 else 0 := by
  obtain ⟨hz1, hz2⟩ := fold_zero_of_change kDown (List.range mb) (s, false) h
  have hany : ((List.range mb).foldl (scanStep kDown) (s, false)).2
      = (List.range mb).any (buttonDown kDown) := by
    rw [fold_any]; simp
  rw [mainLoopScan_timer, hany, hz1, hz2]
  simp

/-- One scan tick while only button i is down, starting from a state where
every other button reads released: the timer/buttonPressTime behave like a
single-button machine and exactly one dispatch (edge or repeat) happens
when the press is fresh or the repeat condition held. -/
theorem tick_held (mb i : Nat) (hi : i < mb) (now : Int) (s : LoopState)
    (hb : ∀ j, j ≠ i → s.buttons j = false) :
    ((mainLoopScan mb (2 ^ i) now s).repeatingButtonTimer
      = if 1000 < now - (if s.buttons i = true then s.buttonPressTime else 0)
        then (if s.buttons i = true then s.repeatingButtonTimer else 0) + 1
        else (if s.buttons i = true then s.repeatingButtonTimer else 0)) ∧
    ((mainLoopScan mb (2 ^ i) now s).buttonPressTime
      = if 1000 < now - (if s.buttons i = true then s.buttonPressTime else 0)
        then now else (if s.buttons i = true then s.buttonPressTime else 0)) ∧
    ((mainLoopScan mb (2 ^ i) now s).dispatches
      = if s.buttons i ≠ true ∨ repeatFlag s = true
        then s.dispatches ++ [(2 ^ i, repeatFlag s)] else s.dispatches) ∧
    (∀ j, (mainLoopScan mb (2 ^ i) now s).buttons j = if j = i then true else s.buttons j) := by
  obtain ⟨k, rfl⟩ : ∃ k, mb = i + 1 + k := ⟨mb - i - 1, by omega⟩
  have hrange1 : List.range (i + 1) = List.range i ++ [i] := by
    simpa using List.range_succ i
  have hsplit : List.range (i + 1 + k)
      = (List.range i ++ [i]) ++ (List.range k).map (fun x => i + 1 + x) := by
    rw [List.range_add, hrange1]
  have hdi : buttonDown (2 ^ i) i = true := by rw [buttonDown_pow]; simp
  obtain ⟨a1, a2, a3, a4, a5⟩ := fold_skip i (List.range i)
    (fun j hj => by have := List.mem_range.mp hj; omega) (s, false) hb
  have hrf : repeatFlag ((List.range i).foldl (scanStep (2 ^ i)) (s, false)).1
      = repeatFlag s := by
    unfold repeatFlag; rw [a1]
  have hstep_timer :
      (scanStep (2 ^ i) ((List.range i).foldl (scanStep (2 ^ i)) (s, false)) i).1.repeatingButtonTimer
        = if s.buttons i = true then s.repeatingButtonTimer else 0 := by
    rw [scanStep_timer, a4 i, a1, hdi]
    by_cases hh : s.buttons i = true <;> simp [hh]
  have hstep_bpt :
      (scanStep (2 ^ i) ((List.range i).foldl (scanStep (2 ^ i)) (s, false)) i).1.buttonPressTime
        = if s.buttons i = true then s.buttonPressTime else 0 := by
    rw [scanStep_bpt, a4 i, a2, hdi]
    by_cases hh : s.buttons i = true <;> simp [hh]
  have hstep_disp :
      (scanStep (2 ^ i) ((List.range i).foldl (scanStep (2 ^ i)) (s, false)) i).1.dispatches
        = if s.buttons i ≠ true ∨ repeatFlag s = true
          then s.dispatches ++ [(2 ^ i, repeatFlag s)] else s.dispatches := by
    rw [scanStep_dispatches, a3, a4 i, hdi, hrf]
    by_cases hh : s.buttons i = true <;> by_cases hrr : repeatFlag s = true <;>
      simp [hh, hrr]
  have hstep_buttons : ∀ j,
      (scanStep (2 ^ i) ((List.range i).foldl (scanStep (2 ^ i)) (s, false)) i).1.buttons j
        = if j = i then true else s.buttons j := by
    intro j
    rw [scanStep_buttons, hdi, a4 j]
  have hstep_any :
      (scanStep (2 ^ i) ((List.range i).foldl (scanStep (2 ^ i)) (s, false)) i).2 = true := by
    rw [scanStep_any, hdi, Bool.or_true]
  obtain ⟨c1, c2, c3, c4, c5⟩ := fold_skip i ((List.range k).map (fun x => i + 1 + x))
    (fun j hj => by obtain ⟨x, _, rfl⟩ := List.mem_map.mp hj; omega)
    (scanStep (2 ^ i) ((List.range i).foldl (scanStep (2 ^ i)) (s, false)) i)
    (fun j hj => by rw [hstep_buttons j, if_neg hj]; exact hb j hj)
  have hFeq : (List.range (i + 1 + k)).foldl (scanStep (2 ^ i)) (s, false)
      = ((List.range k).map (fun x => i + 1 + x)).foldl (scanStep (2 ^ i))
          (scanStep (2 ^ i) ((List.range i).foldl (scanStep (2 ^ i)) (s, false)) i) := by
    rw [hsplit, List.foldl_append, List.foldl_append]
    simp only [List.foldl_cons, List.foldl_nil]
  refine ⟨?_, ?_, ?_, ?_⟩
  · rw [mainLoopScan_timer, hFeq, c5, hstep_any, c2, hstep_bpt, c1, hstep_timer]
    simp
  · rw [mainLoopScan_bpt, hFeq, c5, hstep_any, c2, hstep_bpt]
    simp
  · rw [mainLoopScan_dispatches, hFeq, c3, hstep_disp]
  · intro j
    rw [mainLoopScan_buttons, hFeq, c4 j, hstep_buttons j]

/-- Holding button i under the normal frame-paced regime: after n ticks
the shared repeat timer equals n (it counts ticks held), and each tick
appends the edge dispatch (first tick) or a repeating dispatch exactly
when the previous tick count m = n - 1 satisfies m > BUTTON_REPEAT_DELAY
and m % BUTTON_REPEAT_CADENCY = 0. -/
theorem holdRun_inv (mb i : Nat) (hi : i < mb) :
    ∀ n : Nat, 1 ≤ n →
      (holdRun mb i n).repeatingButtonTimer = (n : Int) ∧
      (holdRun mb i n).buttonPressTime = 2000 * (n : Int) ∧
      (∀ j, (holdRun mb i n).buttons j = decide (j = i)) ∧
      (holdRun mb i n).dispatches
        = (holdRun mb i (n - 1)).dispatches
          ++ (if n = 1 then [(2 ^ i, false)]
              else if BUTTON_REPEAT_DELAY < (n : Int) - 1
                  ∧ ((n : Int) - 1) % BUTTON_REPEAT_CADENCY = 0
                then [(2 ^ i, true)] else []) := by
  intro n
  induction n with
  | zero => intro hcon; exact absurd hcon (by omega)
  | succ m ih =>
    intro _
    have hunf : holdRun mb i (m + 1)
        = mainLoopScan mb (2 ^ i) (2000 * ((m : Int) + 1)) (holdRun mb i m) := by
      show mainLoopScan mb (2 ^ i) (2000 * ((m + 1 : Nat) : Int)) (holdRun mb i m) = _
      push_cast
      rfl
    rcases Nat.eq_zero_or_pos m with rfl | hmpos
    · have hb : ∀ j, j ≠ i → (holdRun mb i 0).buttons j = false := fun _ _ => rfl
      obtain ⟨t, b, d, bt⟩ :=
        tick_held mb i hi (2000 * (((0 : Nat) : Int) + 1)) (holdRun mb i 0) hb
      have hheld : (holdRun mb i 0).buttons i = false := rfl
      rw [hheld] at t b d
      simp only [Bool.false_eq_true, if_false, ne_eq] at t b d
      refine ⟨?_, ?_, ?_, ?_⟩
      · rw [hunf, t]; norm_num
      · rw [hunf, b]; norm_num
      · intro j
        rw [hunf, bt j]
        rcases eq_or_ne j i with rfl | hne
        · simp
        · simp [hne, hb j hne]
      · rw [hunf, d]
        have hrf : repeatFlag (holdRun mb i 0) = false := by
          unfold repeatFlag
          simp [holdRun, initLoopState, BUTTON_REPEAT_DELAY]
        rw [hrf]
        simp
    · obtain ⟨t', b', bt', d'⟩ := ih hmpos
      have hb : ∀ j, j ≠ i → (holdRun mb i m).buttons j = false := by
        intro j hj
        rw [bt' j]
        simp [hj]
      obtain ⟨t, b, d, bt⟩ := tick_held mb i hi (2000 * ((m : Int) + 1)) (holdRun mb i m) hb
      have hheld : (holdRun mb i m).buttons i = true := by
        rw [bt' i]; simp
      rw [hheld] at t b d
      simp only [if_true, ne_eq, not_true_eq_false, false_or] at t b d
      have hgate : (1000 : Int) < 2000 * ((m : Int) + 1) - (holdRun mb i m).buttonPressTime := by
        rw [b']
        have : (1 : Int) ≤ (m : Int) := by exact_mod_cast hmpos
        nlinarith
      refine ⟨?_, ?_, ?_, ?_⟩
      · rw [hunf, t, if_pos hgate, t']
        push_cast
        ring
      · rw [hunf, b, if_pos hgate]
        push_cast
        ring
      · intro j
        rw [hunf, bt j]
        rcases eq_or_ne j i with rfl | hne
        · simp
        · simp [hne, hb j hne]
      · rw [hunf, d]
        have hm1 : ¬(m + 1 = 1) := by omega
        have hsub : ((m + 1 : Nat) : Int) - 1 = (m : Int) := by push_cast; ring
        have hrf : repeatFlag (holdRun mb i m)
            = decide (BUTTON_REPEAT_DELAY < (m : Int)
                ∧ (m : Int) % BUTTON_REPEAT_CADENCY = 0) := by
          unfold repeatFlag
          rw [t']
        by_cases hcond : BUTTON_REPEAT_DELAY < (m : Int)
            ∧ (m : Int) % BUTTON_REPEAT_CADENCY = 0
        · rw [hrf, decide_eq_true hcond]
          simp only [Nat.add_sub_cancel, hsub]
          simp [hcond, hm1]
        · rw [hrf, decide_eq_false hcond]
          simp only [Bool.false_eq_true, if_false, Nat.add_sub_cancel, hsub]
          rw [if_neg hm1, if_neg hcond]
          simp

/-- C8: held-button auto-repeat.  Reset: whenever a button's
pressed/released status changes during a scan, the shared repeat timer is
zeroed on the spot (ending the tick at 0, or at 1 when a button is held
and the wall gate passed, since the shared increment runs after the
reset), so releasing and re-pressing restarts the delay from zero.
Cadence: holding a button continuously (one increment per tick in the
frame-paced regime, so the timer counts ticks held) dispatches the edge
activation on the first tick and then repeating activations exactly at the
ticks whose previous tick count exceeds BUTTON_REPEAT_DELAY and is a
multiple of BUTTON_REPEAT_CADENCY — an initial delay, then a fixed cadence
measured in tick counts. -/
theorem button_repeat_delay_cadence_reset :
    (∀ (mb kDown : Nat) (now : Int) (s : LoopState),
      (∃ j ∈ List.range mb, s.buttons j ≠ buttonDown kDown j) →
      (mainLoopScan mb kDown now s).repeatingButtonTimer
        = if (List.range mb).any (buttonDown kDown) = true ∧ 1000 < now then 1 else 0) ∧
    (∀ mb i : Nat, i < mb → ∀ n : Nat, 1 ≤ n →
      (holdRun mb i n).repeatingButtonTimer = (n : Int) ∧
      (holdRun mb i n).dispatches
        = (holdRun mb i (n - 1)).dispatches
          ++ (if n = 1 then [(2 ^ i, false)]
              else if BUTTON_REPEAT_DELAY < (n : Int) - 1
                  ∧ ((n : Int) - 1) % BUTTON_REPEAT_CADENCY = 0
                then [(2 ^ i, true)] else [])) :=
  ⟨scan_reset, fun mb i hi n hn =>
    ⟨(holdRun_inv mb i hi n hn).1, (holdRun_inv mb i hi n hn).2.2.2⟩⟩

theorem button_repeat_delay_cadence_reset_witness :
    (initLoopState.buttons 0 ≠ buttonDown 1 0) ∧
    ((mainLoopScan 2 1 2000 initLoopState).repeatingButtonTimer
      = if (List.range 2).any (buttonDown 1) = true ∧ (1000 : Int) < 2000 then 1 else 0) ∧
    ((holdRun 1 0 21).repeatingButtonTimer = (21 : Int)) ∧
    ((holdRun 1 0 21).dispatches = (holdRun 1 0 20).dispatches ++ [(2 ^ 0, true)]) :=
  ⟨by decide,
    button_repeat_delay_cadence_reset.1 2 1 2000 initLoopState ⟨0, by decide, by decide⟩,
    (button_repeat_delay_cadence_reset.2 1 0 (by decide) 21 (by decide)).1,
    by
      have h := (button_repeat_delay_cadence_reset.2 1 0 (by decide) 21 (by decide)).2
      rw [h]
      norm_num [BUTTON_REPEAT_DELAY, BUTTON_REPEAT_CADENCY]⟩

end Loop

end Borealis
